import Mathlib

/-!
Verification of the custom-autograd examples in
`Pytorch/Extending_torch_autograd.ipynb`.

The notebook defines two custom differentiable operations for a
reverse-mode autodiff engine:

* `LinearFunction` with
  `forward(ctx, input, weight, bias=None) = input.mm(weight.t()) (+ bias broadcast)`
  and `backward(ctx, grad_output)` returning
  `(grad_output.mm(weight), grad_output.t().mm(input), grad_output.sum(0))`,
  each slot guarded by `ctx.needs_input_grad` (and bias presence);
* `MulConstant` with `forward(ctx, tensor, constant) = tensor * constant`
  and `backward(ctx, grad_output) = (grad_output * ctx.constant, None)`,
  plus an optimized variant that calls `ctx.set_materialize_grads(False)`
  and handles a `None` upstream gradient.

Tensors are embedded as Mathlib matrices over `ℚ` (the notebook uses
double-precision floats; exact rationals model the ideal real
arithmetic).  A `None`-able gradient slot is an `Option`.  In-place
versus allocating tensor operations are modelled separately by a small
store semantics (`Store`), used for the frame properties.
-/

/-- Context object for `LinearFunction`: `ctx.save_for_backward(input, weight, bias)`
stores the three forward arguments; `needs_input_grad` is the tuple of
booleans the engine provides, one per forward input. -/
structure LinCtx (m k n : ℕ) where
  saved_input : Matrix (Fin m) (Fin k) ℚ
  saved_weight : Matrix (Fin n) (Fin k) ℚ
  saved_bias : Option (Fin n → ℚ)
  needs_input_grad : Fin 3 → Bool

/-- Embedding of `LinearFunction.forward`.  `needs` is the engine-supplied
`needs_input_grad` tuple recorded on the context.  The Python body is:
`ctx.save_for_backward(input, weight, bias)`;
`output = input.mm(weight.t())`;
`if bias is not None: output += bias.unsqueeze(0).expand_as(output)`;
`return output`. -/
def LinearFunction.forward {m k n : ℕ} (input : Matrix (Fin m) (Fin k) ℚ)
    (weight : Matrix (Fin n) (Fin k) ℚ) (bias : Option (Fin n → ℚ))
    (needs : Fin 3 → Bool) :
    LinCtx m k n × Matrix (Fin m) (Fin n) ℚ :=
  let ctx : LinCtx m k n :=
    { saved_input := input, saved_weight := weight, saved_bias := bias,
      needs_input_grad := needs }
  let output := input * weight.transpose
  let output :=
    match bias with
    | none => output
    | some b => Matrix.of fun i j => output i j + b j
  (ctx, output)

/-- Embedding of `LinearFunction.backward`.  The Python body unpacks
`input, weight, bias = ctx.saved_tensors`, initializes
`grad_input = grad_weight = grad_bias = None`, then:
`if ctx.needs_input_grad[0]: grad_input = grad_output.mm(weight)`;
`if ctx.needs_input_grad[1]: grad_weight = grad_output.t().mm(input)`;
`if bias is not None and ctx.needs_input_grad[2]: grad_bias = grad_output.sum(0)`;
`return grad_input, grad_weight, grad_bias`. -/
def LinearFunction.backward {m k n : ℕ} (ctx : LinCtx m k n)
    (grad_output : Matrix (Fin m) (Fin n) ℚ) :
    Option (Matrix (Fin m) (Fin k) ℚ) × Option (Matrix (Fin n) (Fin k) ℚ) ×
      Option (Fin n → ℚ) :=
  let input := ctx.saved_input
  let weight := ctx.saved_weight
  let bias := ctx.saved_bias
  let grad_input : Option (Matrix (Fin m) (Fin k) ℚ) := none
  let grad_weight : Option (Matrix (Fin n) (Fin k) ℚ) := none
  let grad_bias : Option (Fin n → ℚ) := none
  let grad_input :=
    if ctx.needs_input_grad 0 then some (grad_output * weight) else grad_input
  let grad_weight :=
    if ctx.needs_input_grad 1 then some (grad_output.transpose * input)
    else grad_weight
  let grad_bias :=
    if bias.isSome && ctx.needs_input_grad 2 then
      some (fun j => ∑ i, grad_output i j)
    else grad_bias
  (grad_input, grad_weight, grad_bias)

/-- Context object for `MulConstant`: `ctx.constant = constant` stashes the
non-tensor argument; `materialize_grads` records whether
`ctx.set_materialize_grads(False)` was called (the engine default is
`true`). -/
structure MulCtx where
  constant : ℚ
  materialize_grads : Bool

/-- Embedding of the un-optimized `MulConstant.forward`:
`ctx.constant = constant; return tensor * constant`. -/
def MulConstant.forward {m n : ℕ} (tensor : Matrix (Fin m) (Fin n) ℚ)
    (constant : ℚ) : MulCtx × Matrix (Fin m) (Fin n) ℚ :=
  ({ constant := constant, materialize_grads := true },
   Matrix.of fun i j => tensor i j * constant)

/-- Embedding of the un-optimized `MulConstant.backward`:
`return grad_output * ctx.constant, None`. -/
def MulConstant.backward {m n : ℕ} (ctx : MulCtx)
    (grad_output : Matrix (Fin m) (Fin n) ℚ) :
    Option (Matrix (Fin m) (Fin n) ℚ) × Option ℚ :=
  (some (Matrix.of fun i j => grad_output i j * ctx.constant), none)

/-- Embedding of the optimized `MulConstant.forward`:
`ctx.set_materialize_grads(False); ctx.constant = constant;
return tensor * constant`. -/
def MulConstantOpt.forward {m n : ℕ} (tensor : Matrix (Fin m) (Fin n) ℚ)
    (constant : ℚ) : MulCtx × Matrix (Fin m) (Fin n) ℚ :=
  ({ constant := constant, materialize_grads := false },
   Matrix.of fun i j => tensor i j * constant)

/-- Embedding of the optimized `MulConstant.backward`.  Because gradient
materialization is off, the upstream gradient may be `None`:
`if grad_output is None: return None, None`;
`return grad_output * ctx.constant, None`. -/
def MulConstantOpt.backward {m n : ℕ} (ctx : MulCtx)
    (grad_output : Option (Matrix (Fin m) (Fin n) ℚ)) :
    Option (Matrix (Fin m) (Fin n) ℚ) × Option ℚ :=
  match grad_output with
  | none => (none, none)
  | some g => (some (Matrix.of fun i j => g i j * ctx.constant), none)

/-- Predicate selecting one gradient slot of a `LinearFunction.backward`
result and asserting it is `None`; slots are numbered like the forward
inputs `(input, weight, bias)`. -/
def LinearFunction.gradSlotIsNone {m k n : ℕ}
    (r : Option (Matrix (Fin m) (Fin k) ℚ) × Option (Matrix (Fin n) (Fin k) ℚ) ×
      Option (Fin n → ℚ)) (i : Fin 3) : Prop :=
  if i.val = 0 then r.1 = none
  else if i.val = 1 then r.2.1 = none
  else r.2.2 = none

/-- Concrete context in which no forward input requires a gradient. -/
def ctxNoGrad : LinCtx 1 1 1 :=
  { saved_input := 0, saved_weight := 0, saved_bias := none,
    needs_input_grad := fun _ => false }

/-- Tagged gradient value of `LinearFunction.backward`, one constructor per
forward input, so that the returned triple can be viewed as an ordered
gradient tuple. -/
inductive LinGrad (m k n : ℕ) where
  | inputG : Matrix (Fin m) (Fin k) ℚ → LinGrad m k n
  | weightG : Matrix (Fin n) (Fin k) ℚ → LinGrad m k n
  | biasG : (Fin n → ℚ) → LinGrad m k n

/-- View of the `LinearFunction.backward` result as the ordered gradient
tuple the Python `return grad_input, grad_weight, grad_bias` produces:
slot 0 for `input`, slot 1 for `weight`, slot 2 for `bias`. -/
def LinearFunction.backwardGradTuple {m k n : ℕ} (ctx : LinCtx m k n)
    (grad_output : Matrix (Fin m) (Fin n) ℚ) : List (Option (LinGrad m k n)) :=
  let r := LinearFunction.backward ctx grad_output
  [r.1.map LinGrad.inputG, r.2.1.map LinGrad.weightG, r.2.2.map LinGrad.biasG]

/-- Tagged gradient value of a `MulConstant` backward, one constructor per
forward input `(tensor, constant)`. -/
inductive MulGrad (m n : ℕ) where
  | tensorG : Matrix (Fin m) (Fin n) ℚ → MulGrad m n
  | constG : ℚ → MulGrad m n

/-- View of the un-optimized `MulConstant.backward` result as the ordered
gradient tuple of the Python `return grad_output * ctx.constant, None`. -/
def MulConstant.backwardGradTuple {m n : ℕ} (ctx : MulCtx)
    (grad_output : Matrix (Fin m) (Fin n) ℚ) : List (Option (MulGrad m n)) :=
  let r := MulConstant.backward ctx grad_output
  [r.1.map MulGrad.tensorG, r.2.map MulGrad.constG]

/-- View of the optimized `MulConstant.backward` result as an ordered
gradient tuple (both its return statements are pairs). -/
def MulConstantOpt.backwardGradTuple {m n : ℕ} (ctx : MulCtx)
    (grad_output : Option (Matrix (Fin m) (Fin n) ℚ)) :
    List (Option (MulGrad m n)) :=
  let r := MulConstantOpt.backward ctx grad_output
  [r.1.map MulGrad.tensorG, r.2.map MulGrad.constG]

/-- Untyped tensor payload for the store semantics; entries outside the
tensor shape are irrelevant to the frame properties. -/
abbrev UMat := ℕ → ℕ → ℚ

/-- Tensor store: `next` is the first unused tensor id, `mem` maps ids to
payloads.  Torch operations like `mm`, `t()`, `sum`, `*` allocate a fresh
tensor; the in-place `+=` writes to an existing id. -/
structure Store where
  next : ℕ
  mem : ℕ → UMat

/-- Allocate a fresh tensor holding `v` and return its id. -/
def Store.alloc (s : Store) (v : UMat) : ℕ × Store :=
  (s.next,
   { next := s.next + 1, mem := fun t => if t = s.next then v else s.mem t })

/-- Overwrite the tensor at id `tid` in place. -/
def Store.write (s : Store) (tid : ℕ) (v : UMat) : Store :=
  { next := s.next, mem := fun t => if t = tid then v else s.mem t }

/-- Read the tensor at id `tid`. -/
def Store.read (s : Store) (tid : ℕ) : UMat := s.mem tid

/-- Guarded allocation: model of `if cond: var = <fresh tensor>` with the
variable previously `None`. -/
def Store.allocIf (s : Store) (cond : Bool) (v : UMat) : Option ℕ × Store :=
  if cond then
    let a := s.alloc v
    (some a.1, a.2)
  else (none, s)

/-- Matrix product contracting over the first `k` indices
(`A.mm(B)` at the payload level). -/
def umm (k : ℕ) (A B : UMat) : UMat :=
  fun i j => ∑ r ∈ Finset.range k, A i r * B r j

/-- Transpose (`A.t()` at the payload level). -/
def utr (A : UMat) : UMat := fun i j => A j i

/-- Column sums over the first `rows` rows (`A.sum(0)`), stored in row 0. -/
def usum0 (rows : ℕ) (A : UMat) : UMat :=
  fun _ j => ∑ i ∈ Finset.range rows, A i j

/-- Broadcast row addition (`A + b.unsqueeze(0).expand_as(A)`), with the
bias vector stored in row 0 of `b`. -/
def urowAdd (A b : UMat) : UMat := fun i j => A i j + b 0 j

/-- Scaling by a scalar constant (`A * c`). -/
def uscale (A : UMat) (c : ℚ) : UMat := fun i j => A i j * c

/-- Store-level embedding of `LinearFunction.forward`, making allocation
and in-place mutation explicit: `input.mm(weight.t())` allocates a fresh
output tensor, and `output += bias.unsqueeze(0).expand_as(output)` is an
in-place write whose target is that fresh output id.  `k` is the
contracted dimension. -/
def LinearFunction.forwardStore (k : ℕ) (inputId weightId : ℕ)
    (biasId : Option ℕ) (s : Store) : ℕ × Store :=
  let a := s.alloc (umm k (s.read inputId) (utr (s.read weightId)))
  let outId := a.1
  let s1 := a.2
  match biasId with
  | none => (outId, s1)
  | some b => (outId, s1.write outId (urowAdd (s1.read outId) (s1.read b)))

/-- Store-level embedding of `LinearFunction.backward`: each guarded
gradient assignment allocates a fresh tensor
(`grad_output.mm(weight)`, `grad_output.t().mm(input)`,
`grad_output.sum(0)`); no statement writes to an existing id.
`mdim`/`ndim` are the contracted dimensions. -/
def LinearFunction.backwardStore (mdim ndim : ℕ) (inputId weightId : ℕ)
    (biasPresent : Bool) (needs : Fin 3 → Bool) (gradOutId : ℕ) (s : Store) :
    (Option ℕ × Option ℕ × Option ℕ) × Store :=
  let step1 := s.allocIf (needs 0) (umm ndim (s.read gradOutId) (s.read weightId))
  let s1 := step1.2
  let step2 :=
    s1.allocIf (needs 1) (umm mdim (utr (s1.read gradOutId)) (s1.read inputId))
  let s2 := step2.2
  let step3 :=
    s2.allocIf (biasPresent && needs 2) (usum0 mdim (s2.read gradOutId))
  ((step1.1, step2.1, step3.1), step3.2)

/-- Store-level embedding of `MulConstant.backward`:
`grad_output * ctx.constant` allocates a fresh tensor. -/
def MulConstant.backwardStore (c : ℚ) (gradOutId : ℕ) (s : Store) :
    (Option ℕ × Option ℕ) × Store :=
  let a := s.alloc (uscale (s.read gradOutId) c)
  ((some a.1, none), a.2)

/-- Concrete store with four live tensors, for instantiating the frame
theorems. -/
def storeEx : Store :=
  { next := 4, mem := fun _ => fun _ _ => 0 }

/-- Finite-difference step of the notebook's gradcheck call, `eps=1e-6`. -/
def gradcheckEps : ℚ := 1 / 1000000

/-- Absolute tolerance of the notebook's gradcheck call, `atol=1e-4`. -/
def gradcheckAtol : ℚ := 1 / 10000

/-- The gradcheck scenario differentiates with respect to every forward
input: `needs_input_grad` is all-true. -/
def needsAll : Fin 3 → Bool := fun _ => true

/-- One-hot matrix with a single 1 entry at `(p, q)`: the perturbation
direction gradcheck uses for one scalar input component, and the one-hot
upstream gradient it uses to read one row of the analytic Jacobian. -/
def basisM {m k : ℕ} (p : Fin m) (q : Fin k) : Matrix (Fin m) (Fin k) ℚ :=
  Matrix.of fun i j => if i = p ∧ j = q then 1 else 0

/-- One-hot vector with a single 1 entry at `q`. -/
def basisV {n : ℕ} (q : Fin n) : Fin n → ℚ :=
  fun j => if j = q then 1 else 0

/-- Central-difference estimate (step `gradcheckEps`) of the partial
derivative of output entry `(i, j)` of `LinearFunction.forward` with
respect to input entry `(p, q)`, as gradcheck computes it. -/
def numJacInput {m k n : ℕ} (A : Matrix (Fin m) (Fin k) ℚ)
    (W : Matrix (Fin n) (Fin k) ℚ) (p : Fin m) (q : Fin k)
    (i : Fin m) (j : Fin n) : ℚ :=
  ((LinearFunction.forward (A + gradcheckEps • basisM p q) W none needsAll).2 i j -
   (LinearFunction.forward (A - gradcheckEps • basisM p q) W none needsAll).2 i j) /
    (2 * gradcheckEps)

/-- Central-difference estimate of the partial derivative of output entry
`(i, j)` with respect to weight entry `(p, q)`. -/
def numJacWeight {m k n : ℕ} (A : Matrix (Fin m) (Fin k) ℚ)
    (W : Matrix (Fin n) (Fin k) ℚ) (p : Fin n) (q : Fin k)
    (i : Fin m) (j : Fin n) : ℚ :=
  ((LinearFunction.forward A (W + gradcheckEps • basisM p q) none needsAll).2 i j -
   (LinearFunction.forward A (W - gradcheckEps • basisM p q) none needsAll).2 i j) /
    (2 * gradcheckEps)

/-- Central-difference estimate of the partial derivative of output entry
`(i, j)` with respect to bias entry `q`, around bias `b`. -/
def numJacBias {m k n : ℕ} (A : Matrix (Fin m) (Fin k) ℚ)
    (W : Matrix (Fin n) (Fin k) ℚ) (b : Fin n → ℚ) (q : Fin n)
    (i : Fin m) (j : Fin n) : ℚ :=
  ((LinearFunction.forward A W
      (some fun t => b t + gradcheckEps * basisV q t) needsAll).2 i j -
   (LinearFunction.forward A W
      (some fun t => b t - gradcheckEps * basisV q t) needsAll).2 i j) /
    (2 * gradcheckEps)

/-- Analytic estimate of the same input partial derivative, read off the
backward pass as gradcheck does: run `LinearFunction.backward` with the
one-hot upstream gradient at `(i, j)` and select entry `(p, q)` of the
input-gradient slot. -/
def anaJacInput {m k n : ℕ} (A : Matrix (Fin m) (Fin k) ℚ)
    (W : Matrix (Fin n) (Fin k) ℚ) (p : Fin m) (q : Fin k)
    (i : Fin m) (j : Fin n) : ℚ :=
  (((LinearFunction.backward (LinearFunction.forward A W none needsAll).1
      (basisM i j)).1).getD 0) p q

/-- Analytic estimate of the weight partial derivative, read off the
weight-gradient slot of the backward pass. -/
def anaJacWeight {m k n : ℕ} (A : Matrix (Fin m) (Fin k) ℚ)
    (W : Matrix (Fin n) (Fin k) ℚ) (p : Fin n) (q : Fin k)
    (i : Fin m) (j : Fin n) : ℚ :=
  (((LinearFunction.backward (LinearFunction.forward A W none needsAll).1
      (basisM i j)).2.1).getD 0) p q

/-- Analytic estimate of the bias partial derivative, read off the
bias-gradient slot of the backward pass (forward invoked with bias `b`). -/
def anaJacBias {m k n : ℕ} (A : Matrix (Fin m) (Fin k) ℚ)
    (W : Matrix (Fin n) (Fin k) ℚ) (b : Fin n → ℚ) (q : Fin n)
    (i : Fin m) (j : Fin n) : ℚ :=
  (((LinearFunction.backward (LinearFunction.forward A W (some b) needsAll).1
      (basisM i j)).2.2).getD 0) q

/-- C1: `LinearFunction.forward` returns exactly `A * Wᵀ` when the bias is
absent, and `A * Wᵀ` with the bias vector broadcast-added to every row when
the bias is supplied. -/
theorem linearFunction_forward_spec {m k n : ℕ}
    (A : Matrix (Fin m) (Fin k) ℚ) (W : Matrix (Fin n) (Fin k) ℚ)
    (needs : Fin 3 → Bool) :
    (LinearFunction.forward A W none needs).2 = A * W.transpose ∧
    ∀ b : Fin n → ℚ,
      (LinearFunction.forward A W (some b) needs).2 =
        Matrix.of fun i j => (A * W.transpose) i j + b j := by
  exact ⟨rfl, fun b => rfl⟩

/-- C3: `MulConstant.backward`, run with the context the un-optimized
`MulConstant.forward` built for tensor `t` and constant `c`, returns the
pair `(g * c, None)`: the upstream gradient scaled entrywise by the stored
constant, and `None` for the non-tensor constant argument. -/
theorem mulConstant_backward_spec {m n : ℕ}
    (t : Matrix (Fin m) (Fin n) ℚ) (c : ℚ)
    (g : Matrix (Fin m) (Fin n) ℚ) :
    MulConstant.backward (MulConstant.forward t c).1 g =
      (some (Matrix.of fun i j => g i j * c), none) :=
  rfl

/-- C4: the optimized `MulConstant` variant sets
`ctx.set_materialize_grads(False)` in its forward, and when its backward
receives `None` as the upstream gradient it returns `(None, None)`. -/
theorem mulConstantOpt_backward_none {m n : ℕ}
    (t : Matrix (Fin m) (Fin n) ℚ) (c : ℚ) (ctx : MulCtx) :
    (MulConstantOpt.forward t c).1.materialize_grads = false ∧
    @MulConstantOpt.backward m n ctx none = (none, none) :=
  ⟨rfl, rfl⟩

/-- C8: on a present upstream gradient the optimized and the un-optimized
`MulConstant` backwards agree: run with the contexts the respective
forwards built for the same tensor and constant, both return
`(g * c, None)`. -/
theorem mulConstantOpt_refines_mulConstant {m n : ℕ}
    (t : Matrix (Fin m) (Fin n) ℚ) (c : ℚ)
    (g : Matrix (Fin m) (Fin n) ℚ) :
    MulConstantOpt.backward (MulConstantOpt.forward t c).1 (some g) =
      MulConstant.backward (MulConstant.forward t c).1 g :=
  rfl

/-- C9: when `LinearFunction.forward` was invoked without a bias, the bias
slot of every subsequent `LinearFunction.backward` is `None`, whatever the
value of `ctx.needs_input_grad[2]` (the saved bias is `None`, so the guard
`bias is not None and ctx.needs_input_grad[2]` is false). -/
theorem linearFunction_backward_no_bias {m k n : ℕ}
    (A : Matrix (Fin m) (Fin k) ℚ) (W : Matrix (Fin n) (Fin k) ℚ)
    (needs : Fin 3 → Bool) (g : Matrix (Fin m) (Fin n) ℚ) :
    (LinearFunction.backward (LinearFunction.forward A W none needs).1 g).2.2 =
      none := by
  simp [LinearFunction.backward, LinearFunction.forward]

/-- C5: a forward input that does not require a gradient gets `None` in its
slot of the `LinearFunction.backward` result, and the non-tensor constant
argument of `MulConstant` always gets `None` from `MulConstant.backward`. -/
theorem backward_none_for_no_grad_inputs :
    (∀ {m k n : ℕ} (ctx : LinCtx m k n) (g : Matrix (Fin m) (Fin n) ℚ)
       (i : Fin 3), ctx.needs_input_grad i = false →
       LinearFunction.gradSlotIsNone (LinearFunction.backward ctx g) i) ∧
    (∀ {m n : ℕ} (mc : MulCtx) (g : Matrix (Fin m) (Fin n) ℚ),
       (MulConstant.backward mc g).2 = none) := by
  constructor
  · intro m k n ctx g i h
    fin_cases i <;>
      simp_all [LinearFunction.gradSlotIsNone, LinearFunction.backward]
  · intro m n mc g
    rfl

/-- Witness for C5: at the concrete context `ctxNoGrad`, whose
`needs_input_grad 0` is false, slot 0 of the backward result is `None`. -/
theorem backward_none_for_no_grad_inputs_w :
    LinearFunction.gradSlotIsNone (LinearFunction.backward ctxNoGrad 0) 0 :=
  backward_none_for_no_grad_inputs.1 ctxNoGrad 0 0 rfl

/-- C6: every backward returns one gradient slot per forward input, in
forward order: the `LinearFunction.backward` tuple has length 3 with slots
tagged `(input, weight, bias)`, and both `MulConstant` backward variants
return tuples of length 2 with slots tagged `(tensor, constant)`. -/
theorem backward_grad_tuple_arity :
    (∀ {m k n : ℕ} (ctx : LinCtx m k n) (g : Matrix (Fin m) (Fin n) ℚ),
       (LinearFunction.backwardGradTuple ctx g).length = 3 ∧
       ∃ oi ow ob, LinearFunction.backwardGradTuple ctx g =
         [Option.map LinGrad.inputG oi, Option.map LinGrad.weightG ow,
          Option.map LinGrad.biasG ob]) ∧
    (∀ {m n : ℕ} (mc : MulCtx) (g : Matrix (Fin m) (Fin n) ℚ),
       (MulConstant.backwardGradTuple mc g).length = 2 ∧
       ∃ ot oc, MulConstant.backwardGradTuple mc g =
         [Option.map MulGrad.tensorG ot, Option.map MulGrad.constG oc]) ∧
    (∀ {m n : ℕ} (mc : MulCtx) (g : Option (Matrix (Fin m) (Fin n) ℚ)),
       (MulConstantOpt.backwardGradTuple mc g).length = 2 ∧
       ∃ ot oc, MulConstantOpt.backwardGradTuple mc g =
         [Option.map MulGrad.tensorG ot, Option.map MulGrad.constG oc]) := by
  refine ⟨fun ctx g => ⟨rfl, ?_⟩, fun mc g => ⟨rfl, ?_⟩, fun mc g => ⟨rfl, ?_⟩⟩
  · exact ⟨(LinearFunction.backward ctx g).1, (LinearFunction.backward ctx g).2.1,
      (LinearFunction.backward ctx g).2.2, rfl⟩
  · exact ⟨(MulConstant.backward mc g).1, (MulConstant.backward mc g).2, rfl⟩
  · exact ⟨(MulConstantOpt.backward mc g).1, (MulConstantOpt.backward mc g).2, rfl⟩

theorem Store.alloc_fst (s : Store) (v : UMat) : (s.alloc v).1 = s.next :=
  rfl

theorem Store.alloc_mem_of_lt (s : Store) (v : UMat) {t : ℕ}
    (h : t < s.next) : ((s.alloc v).2).mem t = s.mem t := by
  simp [Store.alloc, Nat.ne_of_lt h]

theorem Store.allocIf_mem_of_lt (s : Store) (cond : Bool) (v : UMat) {t : ℕ}
    (h : t < s.next) : ((s.allocIf cond v).2).mem t = s.mem t := by
  cases cond <;> simp [Store.allocIf, Store.alloc, Nat.ne_of_lt h]

theorem Store.allocIf_next_le (s : Store) (cond : Bool) (v : UMat) :
    s.next ≤ ((s.allocIf cond v).2).next := by
  cases cond <;> simp [Store.allocIf, Store.alloc]

theorem Store.write_mem_of_ne (s : Store) (tid : ℕ) (v : UMat) {t : ℕ}
    (h : t ≠ tid) : ((s.write tid v).mem) t = s.mem t := by
  simp [Store.write, h]

/-- C7: neither backward mutates the upstream gradient: in the store
semantics, after `LinearFunction.backwardStore` or
`MulConstant.backwardStore` runs, the tensor at the upstream gradient's id
holds exactly the payload it held on entry. -/
theorem backward_does_not_mutate_grad_output :
    (∀ (mdim ndim inputId weightId : ℕ) (biasPresent : Bool)
       (needs : Fin 3 → Bool) (gradOutId : ℕ) (s : Store),
       gradOutId < s.next →
       ((LinearFunction.backwardStore mdim ndim inputId weightId biasPresent
           needs gradOutId s).2).mem gradOutId = s.mem gradOutId) ∧
    (∀ (c : ℚ) (gradOutId : ℕ) (s : Store), gradOutId < s.next →
       ((MulConstant.backwardStore c gradOutId s).2).mem gradOutId =
         s.mem gradOutId) := by
  constructor
  · intro mdim ndim inputId weightId biasPresent needs gradOutId s h
    unfold LinearFunction.backwardStore
    simp only
    rw [Store.allocIf_mem_of_lt, Store.allocIf_mem_of_lt,
      Store.allocIf_mem_of_lt]
    · exact h
    · exact lt_of_lt_of_le h (Store.allocIf_next_le _ _ _)
    · exact lt_of_lt_of_le (lt_of_lt_of_le h (Store.allocIf_next_le _ _ _))
        (Store.allocIf_next_le _ _ _)
  · intro c gradOutId s h
    unfold MulConstant.backwardStore
    simp only
    exact Store.alloc_mem_of_lt _ _ h

/-- Witness for C7 at the concrete store `storeEx`: a backward pass over
tensors 0, 1 with upstream gradient at id 3 leaves tensor 3 unchanged, for
both operations. -/
theorem backward_does_not_mutate_grad_output_w :
    ((LinearFunction.backwardStore 1 1 0 1 true (fun _ => true) 3
        storeEx).2).mem 3 = storeEx.mem 3 ∧
    ((MulConstant.backwardStore 2 3 storeEx).2).mem 3 = storeEx.mem 3 :=
  ⟨backward_does_not_mutate_grad_output.1 1 1 0 1 true (fun _ => true) 3
     storeEx (by decide),
   backward_does_not_mutate_grad_output.2 2 3 storeEx (by decide)⟩

/-- C10: `LinearFunction.forwardStore` never mutates its inputs: the output
is allocated at the previously unused id, the in-place bias addition
targets only that fresh id, and the tensors at the input, weight and bias
ids hold their original payloads afterwards. -/
theorem forward_does_not_mutate_inputs :
    ∀ (k inputId weightId : ℕ) (biasId : Option ℕ) (s : Store),
      inputId < s.next → weightId < s.next →
      (∀ b, biasId = some b → b < s.next) →
      (LinearFunction.forwardStore k inputId weightId biasId s).1 = s.next ∧
      ((LinearFunction.forwardStore k inputId weightId biasId s).2).mem
          inputId = s.mem inputId ∧
      ((LinearFunction.forwardStore k inputId weightId biasId s).2).mem
          weightId = s.mem weightId ∧
      ∀ b, biasId = some b →
        ((LinearFunction.forwardStore k inputId weightId biasId s).2).mem b =
          s.mem b := by
  intro k inputId weightId biasId s hi hw hb
  cases biasId with
  | none =>
      refine ⟨rfl, ?_, ?_, ?_⟩
      · exact Store.alloc_mem_of_lt _ _ hi
      · exact Store.alloc_mem_of_lt _ _ hw
      · intro b hb'
        cases hb'
  | some b =>
      have hbn : b < s.next := hb b rfl
      simp only [LinearFunction.forwardStore, Store.alloc_fst]
      refine ⟨by trivial, ?_, ?_, ?_⟩
      · rw [Store.write_mem_of_ne _ _ _ (Nat.ne_of_lt hi)]
        exact Store.alloc_mem_of_lt _ _ hi
      · rw [Store.write_mem_of_ne _ _ _ (Nat.ne_of_lt hw)]
        exact Store.alloc_mem_of_lt _ _ hw
      · intro b' hb'
        injection hb' with hbb
        subst hbb
        rw [Store.write_mem_of_ne _ _ _ (Nat.ne_of_lt hbn)]
        exact Store.alloc_mem_of_lt _ _ hbn

/-- Witness for C10 at the concrete store `storeEx`: a forward pass over
tensors 0 (input), 1 (weight) and 2 (bias) leaves tensor 0 unchanged. -/
theorem forward_does_not_mutate_inputs_w :
    ((LinearFunction.forwardStore 1 0 1 (some 2) storeEx).2).mem 0 =
      storeEx.mem 0 :=
  (forward_does_not_mutate_inputs 1 0 1 (some 2) storeEx (by decide)
      (by decide) (fun b hb => by injection hb with h; subst h; decide)).2.1

theorem gradcheckEps_ne : gradcheckEps ≠ 0 := by
  norm_num [gradcheckEps]

theorem centralDiff_eq (x y e : ℚ) (he : e ≠ 0) :
    ((x + e * y) - (x - e * y)) / (2 * e) = y := by
  have h2 : (2 : ℚ) * e ≠ 0 := mul_ne_zero two_ne_zero he
  rw [div_eq_iff h2]
  ring

theorem basisM_mul_apply {m k n : ℕ} (p : Fin m) (q : Fin k)
    (M : Matrix (Fin k) (Fin n) ℚ) (i : Fin m) (j : Fin n) :
    (basisM p q * M) i j = if i = p then M q j else 0 := by
  by_cases h : i = p
  · subst h
    simp [basisM, Matrix.mul_apply]
  · simp [basisM, Matrix.mul_apply, h]

theorem mul_basisMT_apply {m k n : ℕ} (p : Fin n) (q : Fin k)
    (A : Matrix (Fin m) (Fin k) ℚ) (i : Fin m) (j : Fin n) :
    (A * (basisM p q).transpose) i j = if j = p then A i q else 0 := by
  by_cases h : j = p
  · subst h
    simp [basisM, Matrix.mul_apply, Matrix.transpose_apply]
  · simp [basisM, Matrix.mul_apply, Matrix.transpose_apply, h]

theorem basisMT_mul_apply {m k n : ℕ} (i : Fin m) (j : Fin n)
    (A : Matrix (Fin m) (Fin k) ℚ) (p : Fin n) (q : Fin k) :
    ((basisM i j).transpose * A) p q = if p = j then A i q else 0 := by
  by_cases h : p = j
  · subst h
    simp [basisM, Matrix.mul_apply, Matrix.transpose_apply]
  · simp [basisM, Matrix.mul_apply, Matrix.transpose_apply, h]

theorem basisM_colsum {m n : ℕ} (i : Fin m) (j : Fin n) (q : Fin n) :
    (∑ r, basisM i j r q) = if q = j then (1 : ℚ) else 0 := by
  by_cases h : q = j
  · subst h
    simp [basisM]
  · simp [basisM, h]

theorem backward_forward_none_needsAll {m k n : ℕ}
    (A : Matrix (Fin m) (Fin k) ℚ) (W : Matrix (Fin n) (Fin k) ℚ)
    (g : Matrix (Fin m) (Fin n) ℚ) :
    LinearFunction.backward (LinearFunction.forward A W none needsAll).1 g =
      (some (g * W), some (g.transpose * A), none) := by
  simp [LinearFunction.backward, LinearFunction.forward, needsAll]

theorem backward_forward_some_needsAll {m k n : ℕ}
    (A : Matrix (Fin m) (Fin k) ℚ) (W : Matrix (Fin n) (Fin k) ℚ)
    (b : Fin n → ℚ) (g : Matrix (Fin m) (Fin n) ℚ) :
    LinearFunction.backward (LinearFunction.forward A W (some b) needsAll).1 g =
      (some (g * W), some (g.transpose * A),
       some (fun j => ∑ i, g i j)) := by
  simp [LinearFunction.backward, LinearFunction.forward, needsAll]

theorem numJacInput_eq {m k n : ℕ} (A : Matrix (Fin m) (Fin k) ℚ)
    (W : Matrix (Fin n) (Fin k) ℚ) (p : Fin m) (q : Fin k)
    (i : Fin m) (j : Fin n) :
    numJacInput A W p q i j = if i = p then W j q else 0 := by
  unfold numJacInput LinearFunction.forward
  simp only [Matrix.add_mul, Matrix.sub_mul, Matrix.smul_mul,
    Matrix.add_apply, Matrix.sub_apply, Matrix.smul_apply, smul_eq_mul]
  rw [centralDiff_eq _ _ _ gradcheckEps_ne, basisM_mul_apply]
  simp [Matrix.transpose_apply]

theorem anaJacInput_eq {m k n : ℕ} (A : Matrix (Fin m) (Fin k) ℚ)
    (W : Matrix (Fin n) (Fin k) ℚ) (p : Fin m) (q : Fin k)
    (i : Fin m) (j : Fin n) :
    anaJacInput A W p q i j = if i = p then W j q else 0 := by
  unfold anaJacInput
  rw [backward_forward_none_needsAll]
  simp only [Option.getD_some]
  rw [basisM_mul_apply]
  rcases eq_or_ne i p with h | h
  · subst h
    simp
  · rw [if_neg (Ne.symm h), if_neg h]

theorem numJacWeight_eq {m k n : ℕ} (A : Matrix (Fin m) (Fin k) ℚ)
    (W : Matrix (Fin n) (Fin k) ℚ) (p : Fin n) (q : Fin k)
    (i : Fin m) (j : Fin n) :
    numJacWeight A W p q i j = if j = p then A i q else 0 := by
  unfold numJacWeight LinearFunction.forward
  simp only [Matrix.transpose_add, Matrix.transpose_sub, Matrix.transpose_smul,
    Matrix.mul_add, Matrix.mul_sub, Matrix.mul_smul,
    Matrix.add_apply, Matrix.sub_apply, Matrix.smul_apply, smul_eq_mul]
  rw [centralDiff_eq _ _ _ gradcheckEps_ne, mul_basisMT_apply]

theorem anaJacWeight_eq {m k n : ℕ} (A : Matrix (Fin m) (Fin k) ℚ)
    (W : Matrix (Fin n) (Fin k) ℚ) (p : Fin n) (q : Fin k)
    (i : Fin m) (j : Fin n) :
    anaJacWeight A W p q i j = if j = p then A i q else 0 := by
  unfold anaJacWeight
  rw [backward_forward_none_needsAll]
  simp only [Option.getD_some]
  rw [basisMT_mul_apply]
  rcases eq_or_ne j p with h | h
  · subst h
    simp
  · rw [if_neg (Ne.symm h), if_neg h]

theorem numJacBias_eq {m k n : ℕ} (A : Matrix (Fin m) (Fin k) ℚ)
    (W : Matrix (Fin n) (Fin k) ℚ) (b : Fin n → ℚ) (q : Fin n)
    (i : Fin m) (j : Fin n) :
    numJacBias A W b q i j = if j = q then 1 else 0 := by
  simp only [numJacBias, LinearFunction.forward, Matrix.of_apply]
  have hnum :
      ((A * W.transpose) i j + (b j + gradcheckEps * basisV q j)) -
        ((A * W.transpose) i j + (b j - gradcheckEps * basisV q j)) =
      2 * gradcheckEps * basisV q j := by
    ring
  rw [hnum, mul_div_cancel_left₀ _ (mul_ne_zero two_ne_zero gradcheckEps_ne)]
  simp [basisV]

theorem anaJacBias_eq {m k n : ℕ} (A : Matrix (Fin m) (Fin k) ℚ)
    (W : Matrix (Fin n) (Fin k) ℚ) (b : Fin n → ℚ) (q : Fin n)
    (i : Fin m) (j : Fin n) :
    anaJacBias A W b q i j = if j = q then 1 else 0 := by
  unfold anaJacBias
  rw [backward_forward_some_needsAll]
  simp only [Option.getD_some]
  rw [basisM_colsum]
  rcases eq_or_ne j q with h | h
  · subst h
    simp
  · rw [if_neg (Ne.symm h), if_neg h]

/-- C2: the notebook's gradcheck scenario succeeds: for double-precision
(modelled as exact rational) inputs of shapes 20×20 and 30×20, the analytic
backward of the linear operation (`grad_input = grad_output·W`,
`grad_weight = grad_outputᵗ·A`, `grad_bias` = column sums of
`grad_output`), read off with one-hot upstream gradients, agrees with the
central-difference estimate of the Jacobian of `LinearFunction.forward`
with step `eps = 1e-6`, within `atol = 1e-4` (the two agree exactly), at
every output entry `(i, j)` and every perturbed scalar component. -/
theorem gradcheck_linear_agrees
    (A : Matrix (Fin 20) (Fin 20) ℚ) (W : Matrix (Fin 30) (Fin 20) ℚ)
    (i : Fin 20) (j : Fin 30) :
    (∀ (p : Fin 20) (q : Fin 20),
       |numJacInput A W p q i j - anaJacInput A W p q i j| ≤ gradcheckAtol) ∧
    (∀ (p : Fin 30) (q : Fin 20),
       |numJacWeight A W p q i j - anaJacWeight A W p q i j| ≤ gradcheckAtol) ∧
    (∀ (b : Fin 30 → ℚ) (q : Fin 30),
       |numJacBias A W b q i j - anaJacBias A W b q i j| ≤ gradcheckAtol) := by
  have hatol : (0 : ℚ) ≤ gradcheckAtol := by norm_num [gradcheckAtol]
  refine ⟨fun p q => ?_, fun p q => ?_, fun b q => ?_⟩
  · rw [numJacInput_eq, anaJacInput_eq, sub_self, abs_zero]
    exact hatol
  · rw [numJacWeight_eq, anaJacWeight_eq, sub_self, abs_zero]
    exact hatol
  · rw [numJacBias_eq, anaJacBias_eq, sub_self, abs_zero]
    exact hatol
